import Mathlib

/-!
Verification model of the ai-code-reviewer pipeline (src/main.ts and the two
historical copies in the repository).  The TypeScript source is shallowly
embedded: JS strings become `List Char`-backed `String`s, JS runtime values
coming out of `JSON.parse` become the inductive `Json` below (with an `undef`
constructor for JavaScript `undefined`), the `async` orchestration loop of
`analyzeCode` becomes a fold whose model invocations are an injected oracle
indexed by call order, and `catch`-absorbed failures become `Option`.

Modelling restrictions (each noted again at the definition it concerns):
* `JSON.parse` is modelled by `jsonParseL`, a recursive-descent parser
  faithful to the JSON grammar except that numeric literals are restricted
  to (signed) decimal integers and `\u` string escapes are not recognised;
  the program's schema (`lineNumber` integers) never needs the rest.
* `Number(x)` coercion (`jsToNumber`) is exact on `undefined`, `null`,
  booleans, numbers and strings-of-integers; composite values (arrays,
  objects) are mapped to NaN, which is exact for objects.
* JS string indices are UTF-16 units; here a string is its list of
  characters (code points).  All concrete inputs below are BMP text where
  the two agree.
-/

/-- JavaScript runtime values produced by `JSON.parse`, plus `undef` for
`undefined` (the result of reading an absent property). -/
inductive Json where
  | undef : Json
  | null : Json
  | bool : Bool → Json
  | num : Int → Json
  | str : String → Json
  | arr : List Json → Json
  | obj : List (String × Json) → Json

/-- The character `{` (kept as a named constant). -/
def lbrace : Char := Char.ofNat 123

/-- The character `}` (kept as a named constant). -/
def rbrace : Char := Char.ofNat 125

/-- The backtick character. -/
def btick : Char := Char.ofNat 96

/-- Whitespace set of JavaScript `String.prototype.trim` (ASCII part). -/
def wsChar (c : Char) : Bool :=
  c = ' ' || c = '\t' || c = '\n' || c = '\r' || c = '\x0b' || c = '\x0c'

/-- Model of `trim()` on a character list: drop whitespace from both ends. -/
def jsTrim (cs : List Char) : List Char :=
  ((cs.dropWhile wsChar).reverse.dropWhile wsChar).reverse

/-- Whitespace accepted between JSON tokens (RFC 8259). -/
def jsonWs (c : Char) : Bool :=
  c = ' ' || c = '\t' || c = '\n' || c = '\r'

/-- Skip inter-token whitespace. -/
def skipWs : List Char → List Char := List.dropWhile jsonWs

/-- ASCII decimal digit test. -/
def isDigitCh (c : Char) : Bool := '0' ≤ c && c ≤ '9'

/-- ASCII alphanumeric test (the `[a-zA-Z0-9]` of the fence regex). -/
def isAlnumCh (c : Char) : Bool :=
  ('a' ≤ c && c ≤ 'z') || ('A' ≤ c && c ≤ 'Z') || isDigitCh c

/-- Value of a digit run. -/
def digitsVal (cs : List Char) : Nat :=
  cs.foldl (fun a c => 10 * a + (c.toNat - 48)) 0

/-- JSON string escapes (`\u` is not modelled; see header comment). -/
def escCh : Char → Option Char
  | '"' => some '"'
  | '\\' => some '\\'
  | '/' => some '/'
  | 'b' => some '\x08'
  | 'f' => some '\x0c'
  | 'n' => some '\n'
  | 'r' => some '\r'
  | 't' => some '\t'
  | _ => none

/-- Body of a JSON string literal, after the opening quote.  Accumulates
characters in reverse; fails on a raw control character, an unknown escape,
or an unterminated literal — exactly the `JSON.parse` failure cases. -/
def pStrBody : List Char → List Char → Option (String × List Char)
  | [], _ => none
  | '"' :: rest, acc => some (⟨acc.reverse⟩, rest)
  | '\\' :: [], _ => none
  | '\\' :: e :: rest, acc =>
    match escCh e with
    | some ec => pStrBody rest (ec :: acc)
    | none => none
  | c :: rest, acc => if c.toNat < 32 then none else pStrBody rest (c :: acc)

/-- JSON number: optional minus, decimal digits, no leading zeros.  A
following `.`, `e` or `E` (a float, legal JSON but outside this model) is
rejected rather than misread. -/
def pNatPart (cs : List Char) : Option (Nat × List Char) :=
  let ds := cs.takeWhile isDigitCh
  let r := cs.dropWhile isDigitCh
  match ds with
  | [] => none
  | [d] =>
    match r with
    | c :: _ => if c = '.' || c = 'e' || c = 'E' then none else some (d.toNat - 48, r)
    | [] => some (d.toNat - 48, [])
  | d :: _ :: _ =>
    if d = '0' then none
    else
      match r with
      | c :: _ => if c = '.' || c = 'e' || c = 'E' then none else some (digitsVal ds, r)
      | [] => some (digitsVal ds, [])

/-- Signed JSON number. -/
def pNum : List Char → Option (Json × List Char)
  | '-' :: rest => (pNatPart rest).map (fun p => (Json.num (-(p.1 : Int)), p.2))
  | cs => (pNatPart cs).map (fun p => (Json.num (p.1 : Int), p.2))

mutual

/-- One JSON value (fuelled recursive descent). -/
def pVal : Nat → List Char → Option (Json × List Char)
  | 0, _ => none
  | fuel + 1, cs =>
    match skipWs cs with
    | [] => none
    | 'n' :: 'u' :: 'l' :: 'l' :: r => some (Json.null, r)
    | 't' :: 'r' :: 'u' :: 'e' :: r => some (Json.bool true, r)
    | 'f' :: 'a' :: 'l' :: 's' :: 'e' :: r => some (Json.bool false, r)
    | '"' :: r => (pStrBody r []).map (fun p => (Json.str p.1, p.2))
    | c :: r =>
      if c = lbrace then pObjStart fuel r
      else if c = '[' then pArrStart fuel r
      else if c = '-' || isDigitCh c then pNum (c :: r)
      else none

/-- Array body, just after `[`. -/
def pArrStart : Nat → List Char → Option (Json × List Char)
  | 0, _ => none
  | fuel + 1, cs =>
    match skipWs cs with
    | ']' :: r => some (Json.arr [], r)
    | _ => pArrElems fuel cs []

/-- Array elements: value, then `,` for more or `]` to close. -/
def pArrElems : Nat → List Char → List Json → Option (Json × List Char)
  | 0, _, _ => none
  | fuel + 1, cs, acc =>
    match pVal fuel cs with
    | none => none
    | some (j, r) =>
      match skipWs r with
      | ',' :: r2 => pArrElems fuel r2 (acc ++ [j])
      | ']' :: r2 => some (Json.arr (acc ++ [j]), r2)
      | _ => none

/-- Object body, just after `{`. -/
def pObjStart : Nat → List Char → Option (Json × List Char)
  | 0, _ => none
  | fuel + 1, cs =>
    match skipWs cs with
    | c :: r => if c = rbrace then some (Json.obj [], r) else pObjFields fuel cs []
    | [] => none

/-- Object members: `"key" : value`, then `,` for more or `}` to close. -/
def pObjFields : Nat → List Char → List (String × Json) → Option (Json × List Char)
  | 0, _, _ => none
  | fuel + 1, cs, acc =>
    match skipWs cs with
    | '"' :: r =>
      match pStrBody r [] with
      | none => none
      | some (k, r2) =>
        match skipWs r2 with
        | ':' :: r3 =>
          match pVal fuel r3 with
          | none => none
          | some (v, r4) =>
            match skipWs r4 with
            | ',' :: r5 => pObjFields fuel r5 (acc ++ [(k, v)])
            | c :: r5 => if c = rbrace then some (Json.obj (acc ++ [(k, v)]), r5) else none
            | [] => none
        | _ => none
    | _ => none

end

/-- Model of `JSON.parse`: a single JSON value, with only whitespace allowed
around it; anything else throws, i.e. yields `none`.  The fuel bounds
recursion depth and is ample for any input of this length. -/
def jsonParseL (cs : List Char) : Option Json :=
  match pVal (4 * (cs.length + 1)) cs with
  | some (j, r) => if skipWs r = [] then some j else none
  | none => none

/-- JavaScript truthiness of a runtime value (`NaN` cannot occur in a value
freshly produced by `JSON.parse`, so it is not represented). -/
def jsTruthy : Json → Bool
  | Json.undef => false
  | Json.null => false
  | Json.bool b => b
  | Json.num n => n ≠ 0
  | Json.str s => s ≠ ""
  | Json.arr _ => true
  | Json.obj _ => true

/-- Property read `j.k` on a JS value: `undefined` unless `j` is an object
with the field; later duplicate keys win, as in a `JSON.parse` object. -/
def jsGetField (j : Json) (key : String) : Json :=
  match j with
  | Json.obj fields =>
    match fields.reverse.find? (fun p => p.1 == key) with
    | some p => p.2
    | none => Json.undef
  | _ => Json.undef

/-- Model of `Number(s)` on a string: trim, empty means `0`, otherwise a (signed)
decimal integer; anything else is NaN (`none`).  Real JS also accepts
float/hex/exponent forms, which this program's schema never produces. -/
def jsStrToNumber (s : String) : Option Int :=
  match jsTrim s.data with
  | [] => some 0
  | '-' :: ds => if ds ≠ [] && ds.all isDigitCh then some (-(digitsVal ds : Int)) else none
  | '+' :: ds => if ds ≠ [] && ds.all isDigitCh then some ((digitsVal ds : Int)) else none
  | ds => if ds.all isDigitCh then some ((digitsVal ds : Int)) else none

/-- Model of `Number(x)` coercion; `none` is NaN.  Arrays are approximated as NaN
(exact for objects; see the header comment). -/
def jsToNumber : Json → Option Int
  | Json.undef => none
  | Json.null => some 0
  | Json.bool b => some (if b then 1 else 0)
  | Json.num n => some n
  | Json.str s => jsStrToNumber s
  | Json.arr _ => none
  | Json.obj _ => none

/-- The two characters of the literal `"{}"` that `getAIResponse` substitutes
for missing or blank model output. -/
def objLitChars : List Char := [lbrace, rbrace]

/-- Model of `response.choices[0].message?.content?.trim() || "{}"`: the raw text both
`getAIResponse` copies start from.  `none` models a missing message body. -/
def rawOf (content : Option String) : List Char :=
  let t := match content with
    | none => []
    | some s => jsTrim s.data
  if t = [] then objLitChars else t

/-- Model of `parsed.reviews || []`.  Reading `.reviews` on `null` (or `undefined`)
throws a `TypeError`, which the surrounding `catch` turns into `null`
(`none` here); a falsy field value is replaced by `[]`. -/
def reviewsOf (parsed : Json) : Option Json :=
  match parsed with
  | Json.null => none
  | Json.undef => none
  | j =>
    let v := jsGetField j "reviews"
    if jsTruthy v then some v else some (Json.arr [])

/-- Parsing stage of `getAIResponse` in src/main.ts (and in the Slack copy of
part_000): trim/default, `JSON.parse`, `parsed.reviews || []`; any throw is
caught and returns `null` (`none`). -/
def getAIResponseMain (content : Option String) : Option Json :=
  match jsonParseL (rawOf content) with
  | none => none
  | some parsed => reviewsOf parsed

/-- Model of `raw.startsWith("```")`. -/
def startsWithFence : List Char → Bool
  | a :: b :: c :: _ => a = btick && b = btick && c = btick
  | _ => false

/-- Model of `raw.replace(/^```[a-zA-Z0-9]*\n/, "")`: drop an opening fence with an
optional alphanumeric language tag, when the regex matches at the start. -/
def stripOpenFence (cs : List Char) : List Char :=
  match cs with
  | a :: b :: c :: rest =>
    if a = btick && b = btick && c = btick then
      match rest.dropWhile isAlnumCh with
      | '\n' :: tl => tl
      | _ => cs
    else cs
  | _ => cs

/-- Model of `raw.replace(/```$/, "")`: drop a closing fence at the very end (JS `$`
without the `m` flag matches only at the end of the input). -/
def stripCloseFence (cs : List Char) : List Char :=
  match cs.reverse with
  | a :: b :: c :: rest =>
    if a = btick && b = btick && c = btick then rest.reverse else cs
  | _ => cs

/-- The fenced-block removal of the part_000 `getAIResponse`: both `replace`
calls and the final `trim` run only under the `startsWith("```")` guard. -/
def defenceFences (cs : List Char) : List Char :=
  if startsWithFence cs then jsTrim (stripCloseFence (stripOpenFence cs)) else cs

/-- Model of `indexOf("{")`, `lastIndexOf("}")` and `slice(first, last + 1)`: when both
braces occur, keep the span from the first `{` to the last `}` (empty when
the last `}` precedes the first `{`, exactly as `slice` yields `""`). -/
def braceSlice (cs : List Char) : List Char :=
  if lbrace ∈ cs ∧ rbrace ∈ cs then
    ((cs.dropWhile (fun c => c ≠ lbrace)).reverse.dropWhile (fun c => c ≠ rbrace)).reverse
  else cs

/-- Parsing stage of `getAIResponse` in the first copy inside part_000: like
`getAIResponseMain` but with fence removal and brace slicing first. -/
def getAIResponseFenceAware (content : Option String) : Option Json :=
  match jsonParseL (braceSlice (defenceFences (rawOf content))) with
  | none => none
  | some parsed => reviewsOf parsed

/-- One line change of a parse-diff chunk; `ln` is set on add/del lines,
`ln2` on context lines (`none` models `undefined`). -/
structure Change where
  ln : Option Int
  ln2 : Option Int
  content : String

/-- One hunk of a parse-diff file. -/
structure Chunk where
  content : String
  changes : List Change

/-- One file of a parsed diff; `to` is the destination path (`none` models
`undefined`, `some "/dev/null"` a deletion). -/
structure FileChange where
  toPath : Option String
  chunks : List Chunk

/-- PR metadata; the `url` field exists only in the Slack copy's interface
and is ignored by the others. -/
structure PRDetails where
  owner : String
  repo : String
  pull_number : Nat
  title : String
  description : String
  url : String

/-- A line-anchored review comment record.  `body` keeps the raw JS value of
the finding's `reviewComment`; `line` is `Number(lineNumber)` with `none`
for NaN. -/
structure ReviewComment where
  body : Json
  path : String
  line : Option Int

/-- JS template interpolation of a possibly-undefined string: `${x}` renders
`undefined` as the text `"undefined"`. -/
def jsShowOptStr : Option String → String
  | none => "undefined"
  | some s => s

/-- JS template interpolation of a possibly-undefined number. -/
def jsShowOptNum : Option Int → String
  | none => "undefined"
  | some n => toString n

/-- Model of `${c.ln ? c.ln : c.ln2} ${c.content}`: `ln` when truthy (defined and
non-zero), else `ln2`. -/
def changeLine (c : Change) : String :=
  (match c.ln with
   | some n => if n ≠ 0 then toString n else jsShowOptNum c.ln2
   | none => jsShowOptNum c.ln2) ++ " " ++ c.content

/-- Model of `[...].join("\n")`. -/
def joinNl : List String → String
  | [] => ""
  | [s] => s
  | s :: rest => s ++ "\n" ++ joinNl rest

/-- Fixed text of the src/main.ts prompt template up to the PR title. -/
def promptHead : String :=
  "\n당신은 시니어 iOS 개발자이자 코드 리뷰어입니다.\n\n## 말투 / 스타일 (아주 중요)\n- 리뷰 코멘트는 **반드시 한국어로** 작성합니다.\n- 항상 **부드럽고 친절하고, 약간 애교 섞인 말투**로 작성합니다.\n- 문장 끝에는 자주 `~했어용`, `~이에용`, `~같아용` 같은 표현을 사용해 주세요.\n- 적절히 😊 🐶 💡 같은 이모티콘을 섞어서 써 주세요.\n- 너무 딱딱한 문장(`합니다`, `입니다`체)보다는 말랑한 어투를 사용해 주세요.\n\n## 리뷰 관점\n- 사소한 스타일 지적(띄어쓰기, 단순 네이밍 취향 차이)은 웬만하면 하지 않습니다.\n- 다음 항목을 우선적으로 봅니다:\n  - 동시성 / 스레드 안전성 (async/await, Task, @MainActor, 공유 상태, race condition 가능성)\n  - 아키텍처 분리 (View / ViewModel / UseCase / Repository / DataSource 책임이 섞여 있지 않은지)\n  - 테스트 용이성, 의존성 주입 구조 (프로토콜, DI, 결합도)\n  - 에러 처리, 옵셔널 처리, 크래시 가능성\n  - 성능에 큰 영향을 줄 수 있는 부분 (불필요한 연산, 중복 호출 등)\n\n## Output format (VERY IMPORTANT)\n- 응답은 **반드시 아래 JSON 형식 그대로** 반환해야 합니다.\n\n\x7b\"reviews\": [\x7b\"lineNumber\":  <line_number>, \"reviewComment\": \"<review comment>\"\x7d]\x7d\n\n- `lineNumber` 는 아래 Git diff에서 리뷰하고 싶은 **코드 라인 번호**입니다.\n- `reviewComment` 에는 GitHub Markdown 형식으로 코멘트를 작성합니다.\n- 개선할 부분이 전혀 없다면, `\"reviews\": []` 로 빈 배열을 반환합니다.\n- 코드에 주석을 추가하라고 제안하지 않습니다.\n- 응답은 **코드블럭(```) 없이** 순수 JSON 문자열만 반환하세요. 맨 앞과 맨 뒤에 아무 텍스트도 추가하지 마세요.\n\n## Context\n아래 PR의 제목과 설명은 **맥락 파악용**으로만 사용하고, 실제 코멘트는 반드시 코드 변경 내용(diff)을 기준으로 작성하세요.\n\nPull request title: "

/-- Template text between the title and the description. -/
def promptMid1 : String := "\nPull request description:\n\n---\n"

/-- Template text between the description and the file path. -/
def promptMid2 : String := "\n---\n\n## Git diff to review (file: \""

/-- Template text between the file path and the hunk content. -/
def promptMid3 : String := "\"):\n\n```diff\n"

/-- Template text closing the diff block. -/
def promptTail : String := "\n```\n"

/-- Model of `createPrompt` of src/main.ts: the instruction template with PR title,
description, destination path, hunk text and per-change resolved line
numbers interpolated. -/
def createPrompt (file : FileChange) (chunk : Chunk) (prDetails : PRDetails) : String :=
  promptHead ++ prDetails.title ++ promptMid1 ++ prDetails.description ++ promptMid2 ++
    jsShowOptStr file.toPath ++ promptMid3 ++ chunk.content ++ "\n" ++
    joinNl (chunk.changes.map changeLine) ++ promptTail

/-- Model of `!file.to`: JS falsiness of the destination path (`undefined` or `""`). -/
def noDestPath : Option String → Bool
  | none => true
  | some s => s = ""

/-- Model of `createComment`: map each finding to a comment record; a finding whose
file has a falsy destination is dropped; `line` is `Number(lineNumber)`
(NaN, i.e. `none`, when the value does not coerce). -/
def createComment (file : FileChange) (_chunk : Chunk) (aiResponses : List Json) :
    List ReviewComment :=
  aiResponses.flatMap (fun aiResponse =>
    if noDestPath file.toPath then []
    else
      [{ body := jsGetField aiResponse "reviewComment",
         path := (file.toPath).getD "",
         line := jsToNumber (jsGetField aiResponse "lineNumber") }])

/-- Running state of the `analyzeCode` loop: comments aggregated so far, the
prompts built so far, and the number of model invocations made so far
(which indexes the next invocation). -/
structure RunState where
  comments : List ReviewComment
  prompts : List String
  idx : Nat

/-- One loop body iteration of `analyzeCode` for a hunk: build the prompt,
invoke the model (the injected oracle, indexed by invocation order), and on
a non-null response append `createComment`'s records.  `if (newComments)` in
the source is always true (an array is truthy), so the append is
unconditional. -/
def processChunk (invoke : Nat → Option (List Json)) (prDetails : PRDetails)
    (file : FileChange) (st : RunState) (chunk : Chunk) : RunState :=
  let prompt := createPrompt file chunk prDetails
  match invoke st.idx with
  | none => { comments := st.comments, prompts := st.prompts ++ [prompt], idx := st.idx + 1 }
  | some aiResponse =>
    { comments := st.comments ++ createComment file chunk aiResponse,
      prompts := st.prompts ++ [prompt], idx := st.idx + 1 }

/-- One outer iteration of `analyzeCode`: skip a deleted file
(`file.to === "/dev/null"`), else process its chunks in order. -/
def processFile (invoke : Nat → Option (List Json)) (prDetails : PRDetails)
    (st : RunState) (file : FileChange) : RunState :=
  if file.toPath = some "/dev/null" then st
  else file.chunks.foldl (processChunk invoke prDetails file) st

/-- Model of `analyzeCode`: files in order, hunks in file order, model responses
consumed in invocation order through the injected oracle.  The oracle stands
for `getAIResponse` at the declared boundary type
`Array<{lineNumber; reviewComment}> | null`, with each element kept as the
raw JS value it is at runtime. -/
def analyzeCode (parsedDiff : List FileChange) (invoke : Nat → Option (List Json))
    (prDetails : PRDetails) : RunState :=
  parsedDiff.foldl (processFile invoke prDetails) { comments := [], prompts := [], idx := 0 }

/-- The single `octokit.pulls.createReview` call of `createReviewComment`. -/
structure ReviewCall where
  owner : String
  repo : String
  pull_number : Nat
  comments : List ReviewComment
  event : String

/-- The publish decision at the end of `main`: a review is created only when
at least one comment was aggregated. -/
def publishStep (prDetails : PRDetails) (comments : List ReviewComment) : Option ReviewCall :=
  if comments.length > 0 then
    some { owner := prDetails.owner, repo := prDetails.repo,
           pull_number := prDetails.pull_number, comments := comments, event := "COMMENT" }
  else none

/-- Model of `truncate` of the Slack copy: keep up to `maxLength` characters and mark
the cut with an ellipsis. -/
def truncate (text : String) (maxLength : Nat) : String :=
  if text.length ≤ maxLength then text else String.mk (text.data.take maxLength) ++ "..."

/-- The comment body as the string the Slack code treats it as.  A
non-string body would make `c.body.replace` throw in JS; the notification
theorems assume string bodies, so the `""` default is never exercised. -/
def bodyStrOf : Json → String
  | Json.str s => s
  | _ => ""

/-- Model of `c.body.replace(/\n/g, " ")`. -/
def oneLineOf (c : ReviewComment) : String :=
  (bodyStrOf c.body).replace "\n" " "

/-- Model of `${c.line}` (NaN renders as `"NaN"`). -/
def lineDisp : Option Int → String
  | none => "NaN"
  | some n => toString n

/-- One preview bullet of the Slack summary. -/
def previewItem (c : ReviewComment) : String :=
  "• `" ++ c.path ++ ":" ++ lineDisp c.line ++ "` — " ++ truncate (oneLineOf c) 200

/-- Model of `comments.slice(0, maxItems)` with `maxItems = 5`, mapped to bullets. -/
def previewOf (comments : List ReviewComment) : List String :=
  (comments.take 5).map previewItem

/-- The fixed message a zero-comment run posts. -/
def noFindingsText : String := "이번 PR에서는 특별히 지적할 부분은 없었어용 😊"

/-- Model of `baseText`: fixed message when no comments, else the comment count. -/
def baseTextOf (comments : List ReviewComment) : String :=
  if comments.length = 0 then noFindingsText
  else "이번 PR에 대해 *" ++ toString comments.length ++
    "개*의 리뷰 코멘트가 생성되었어용. 주요 내용 일부만 정리해 드릴게요 🐶"

/-- Model of `slackText = [baseText, "", ...summarized].join("\n")`. -/
def slackBody (comments : List ReviewComment) : String :=
  joinNl (baseTextOf comments :: "" :: previewOf comments)

/-- The first Slack block: headline and the link back to the PR. -/
def slackHeader (prDetails : PRDetails) : String :=
  "*AI 코드 리뷰 결과에요 🧁*\n*PR:* <" ++ prDetails.url ++ "|" ++ prDetails.title ++ ">"

/-- The Slack webhook payload: the fallback `text` and the `mrkdwn` texts of
the two section blocks. -/
structure SlackPayload where
  text : String
  blocks : List String

/-- Model of `notifySlack` of the Slack copy in part_000: skip silently when no
webhook URL is configured, else build the summary payload.  The `some`
payload models the single `postToSlack` request. -/
def notifySlack (webhookUrl : String) (prDetails : PRDetails)
    (comments : List ReviewComment) : Option SlackPayload :=
  if webhookUrl = "" then none
  else some { text := "AI 코드 리뷰 결과",
              blocks := [slackHeader prDetails, slackBody comments] }

/-- Tail of `main` in the Slack copy: the conditional review publication
followed by the unconditional `notifySlack`. -/
def mainFinal (webhookUrl : String) (prDetails : PRDetails)
    (comments : List ReviewComment) : Option ReviewCall × Option SlackPayload :=
  (publishStep prDetails comments, notifySlack webhookUrl prDetails comments)

/-- Spec-side enumeration (§4.5/§5 wording): the (file, hunk) pairs the
orchestrator is to visit — files with a non-deleted destination, in file
order then hunk order. -/
def hunksOf (files : List FileChange) : List (FileChange × Chunk) :=
  files.flatMap (fun f =>
    if f.toPath = some "/dev/null" then [] else f.chunks.map (fun c => (f, c)))

/-- Spec-side aggregate (§5 ordering wording): comments in encounter order —
hunk `i` contributes its mapped findings, in finding order, at position `i`
of the traversal. -/
def encounterFrom (invoke : Nat → Option (List Json)) :
    Nat → List (FileChange × Chunk) → List ReviewComment
  | _, [] => []
  | i, (f, c) :: rest =>
    (match invoke i with
     | none => []
     | some aiResponse => createComment f c aiResponse) ++ encounterFrom invoke (i + 1) rest

/-- Spec-side prompt list: one prompt per visited hunk, in encounter order. -/
def promptsOf (files : List FileChange) (prDetails : PRDetails) : List String :=
  (hunksOf files).map (fun fc => createPrompt fc.1 fc.2 prDetails)

/-- Tests whether `sub` is an initial segment of `l`. -/
def listHasPfx : List Char → List Char → Bool
  | [], _ => true
  | _ :: _, [] => false
  | a :: s, b :: t => a = b && listHasPfx s t

/-- Tests whether `sub` occurs contiguously somewhere in `l`. -/
def listHasSub (sub : List Char) : List Char → Bool
  | [] => sub.isEmpty
  | c :: t => listHasPfx sub (c :: t) || listHasSub sub t

/-- Substring test on strings (used to state what a payload contains). -/
def strContains (hay sub : String) : Bool :=
  listHasSub sub.data hay.data

/-- A well-formed empty-review model response. -/
def tRevEmpty : String := "\x7b\"reviews\":[]\x7d"

/-- A well-formed one-review model response. -/
def tRevOne : String :=
  "\x7b\"reviews\": [\x7b\"lineNumber\": 11, \"reviewComment\": \"nice\"\x7d]\x7d"

/-- Concrete PR metadata for witnesses. -/
def pr0 : PRDetails :=
  { owner := "octo", repo := "app", pull_number := 7, title := "Add login",
    description := "adds login flow", url := "https://github.com/octo/app/pull/7" }

/-- A concrete line change. -/
def change0 : Change := { ln := some 11, ln2 := none, content := "+let x = y!" }

/-- A concrete hunk. -/
def chunk0 : Chunk := { content := "@@ -10,2 +10,3 @@", changes := [change0] }

/-- A file with a normal destination path. -/
def fileOk : FileChange := { toPath := some "src/A.swift", chunks := [chunk0] }

/-- A deleted file (destination `/dev/null`). -/
def fileDel : FileChange := { toPath := some "/dev/null", chunks := [chunk0] }

/-- A file whose destination path is absent. -/
def fileNoDest : FileChange := { toPath := none, chunks := [chunk0] }

/-- A finding whose `lineNumber` does not coerce to a number. -/
def findingNaN : Json :=
  Json.obj [("lineNumber", Json.str "abc"), ("reviewComment", Json.str "check this")]

/-- A finding with a numeric line. -/
def findingOk : Json :=
  Json.obj [("lineNumber", Json.num 11), ("reviewComment", Json.str "nice")]

/-- A concrete comment record for the notification witnesses. -/
def comment0 : ReviewComment :=
  { body := Json.str "nice", path := "src/A.swift", line := some 11 }

theorem str_data_append (s t : String) : (s ++ t).data = s.data ++ t.data := rfl

theorem str_append_empty (s : String) : s ++ "" = s := by
  cases s with
  | mk l => show String.mk (l ++ []) = String.mk l; rw [List.append_nil]

theorem dropWhile_append_cons (p : Char → Bool) (A : List Char) (x : Char) (B : List Char)
    (hx : p x = false) : List.dropWhile p (A ++ x :: B) = List.dropWhile p A ++ x :: B := by
  induction A with
  | nil => simp [List.dropWhile, hx]
  | cons c A ih =>
    by_cases hc : p c = true
    · simpa [List.dropWhile, hc] using ih
    · simp only [Bool.not_eq_true] at hc
      simp [List.dropWhile, hc]

theorem dropWhile_eq_nil_of_all (p : Char → Bool) (A : List Char)
    (h : ∀ c ∈ A, p c = true) : List.dropWhile p A = [] := by
  induction A with
  | nil => rfl
  | cons c A ih =>
    have hc := h c (by simp)
    simp [List.dropWhile, hc, ih (fun d hd => h d (by simp [hd]))]

theorem mem_of_mem_dropWhile (p : Char → Bool) (l : List Char) (a : Char)
    (h : a ∈ l.dropWhile p) : a ∈ l := by
  induction l with
  | nil => simp [List.dropWhile] at h
  | cons c t ih =>
    by_cases hc : p c = true
    · simp only [List.dropWhile, hc] at h
      exact List.mem_cons_of_mem _ (ih h)
    · simp only [Bool.not_eq_true] at hc
      simpa [List.dropWhile, hc] using h

/-- Applying `trim` around a block with non-whitespace first and last characters only
eats into the surrounding text. -/
theorem jsTrim_around (L R M : List Char)
    (h1 : ∃ a t, M = a :: t ∧ wsChar a = false)
    (h2 : ∃ t b, M = t ++ [b] ∧ wsChar b = false) :
    jsTrim (L ++ M ++ R) =
      L.dropWhile wsChar ++ M ++ (R.reverse.dropWhile wsChar).reverse := by
  obtain ⟨a, t, hM, ha⟩ := h1
  obtain ⟨t2, b, hM2, hb⟩ := h2
  unfold jsTrim
  have e1 : List.dropWhile wsChar (L ++ M ++ R) = L.dropWhile wsChar ++ M ++ R := by
    rw [hM]
    rw [List.append_assoc, List.cons_append]
    rw [dropWhile_append_cons wsChar L a (t ++ R) ha]
    simp [List.append_assoc]
  rw [e1]
  have e2 : (L.dropWhile wsChar ++ M ++ R).reverse
      = R.reverse ++ b :: (t2.reverse ++ (L.dropWhile wsChar).reverse) := by
    rw [hM2]
    simp [List.reverse_append, List.append_assoc]
  rw [e2]
  rw [dropWhile_append_cons wsChar R.reverse b _ hb]
  rw [hM2]
  simp [List.reverse_append, List.append_assoc]

theorem listHasPfx_self_append (x b : List Char) : listHasPfx x (x ++ b) = true := by
  induction x with
  | nil => rfl
  | cons a s ih => simp [listHasPfx, ih]

theorem listHasSub_of_parts (x pre post : List Char) :
    listHasSub x (pre ++ x ++ post) = true := by
  induction pre with
  | nil =>
    simp only [List.nil_append]
    cases hx : x with
    | nil =>
      cases post with
      | nil => simp [listHasSub, List.isEmpty]
      | cons c t => simp [listHasSub, listHasPfx]
    | cons a s =>
      subst hx
      show listHasSub (a :: s) (a :: (s ++ post)) = true
      have hp : listHasPfx (a :: s) (a :: (s ++ post)) = true :=
        listHasPfx_self_append (a :: s) post
      simp [listHasSub, hp]
  | cons c pre ih =>
    simp only [List.cons_append]
    simp [listHasSub]
    right
    simpa [List.append_assoc] using ih

/-- Substring of a three-part concatenation of strings. -/
theorem strContains_parts (pre mid post : String) :
    strContains (pre ++ mid ++ post) mid = true := by
  unfold strContains
  rw [str_data_append, str_data_append]
  exact listHasSub_of_parts mid.data pre.data post.data

theorem startsWithFence_of_head (a : Char) (t : List Char) (h : a ≠ btick) :
    startsWithFence (a :: t) = false := by
  cases t with
  | nil => rfl
  | cons b t2 =>
    cases t2 with
    | nil => rfl
    | cons c t3 => simp [startsWithFence, h]

/-- Slicing from the first `{` to the last `}` recovers a brace-delimited
block out of brace-free surroundings. -/
theorem braceSlice_extract (L mid R : List Char)
    (hL : ∀ c ∈ L, c ≠ lbrace) (hR : ∀ c ∈ R, c ≠ rbrace) :
    braceSlice (L ++ (lbrace :: mid ++ [rbrace]) ++ R) = lbrace :: mid ++ [rbrace] := by
  have hmem : lbrace ∈ L ++ (lbrace :: mid ++ [rbrace]) ++ R ∧
      rbrace ∈ L ++ (lbrace :: mid ++ [rbrace]) ++ R := by
    constructor <;> simp
  unfold braceSlice
  rw [if_pos hmem]
  have assoc1 : L ++ (lbrace :: mid ++ [rbrace]) ++ R
      = L ++ lbrace :: ((mid ++ [rbrace]) ++ R) := by simp
  rw [assoc1]
  rw [dropWhile_append_cons _ L lbrace _ (by simp)]
  rw [dropWhile_eq_nil_of_all _ L (fun c hc => by simpa using hL c hc)]
  have assoc2 : (([] : List Char) ++ lbrace :: ((mid ++ [rbrace]) ++ R)).reverse
      = R.reverse ++ rbrace :: (mid.reverse ++ [lbrace]) := by
    simp [List.reverse_append]
  rw [assoc2]
  rw [dropWhile_append_cons _ R.reverse rbrace _ (by simp)]
  rw [dropWhile_eq_nil_of_all _ R.reverse
    (fun c hc => by simpa using hR c (List.mem_reverse.mp hc))]
  simp [List.reverse_append]

theorem jsTrim_id (M : List Char)
    (h1 : ∃ a t, M = a :: t ∧ wsChar a = false)
    (h2 : ∃ t b, M = t ++ [b] ∧ wsChar b = false) : jsTrim M = M := by
  have h := jsTrim_around [] [] M h1 h2
  simpa using h

/-- Preprocessing of the fence-aware extractor on a brace-delimited block
surrounded by prose: the prose is cut away as long as the leading part
contains no `{` (and does not begin a fence) and the trailing part contains
no `}`. -/
theorem preprocessA_prose (L mid R : List Char)
    (hL1 : ∀ c ∈ L, c ≠ lbrace) (hL2 : ∀ c ∈ L, c ≠ btick)
    (hR : ∀ c ∈ R, c ≠ rbrace) :
    braceSlice (defenceFences (rawOf (some
        (String.mk (L ++ (lbrace :: mid ++ [rbrace]) ++ R)))))
      = lbrace :: mid ++ [rbrace] := by
  have ht : jsTrim (L ++ (lbrace :: mid ++ [rbrace]) ++ R)
      = L.dropWhile wsChar ++ (lbrace :: mid ++ [rbrace]) ++
        (R.reverse.dropWhile wsChar).reverse :=
    jsTrim_around L R _ ⟨lbrace, mid ++ [rbrace], rfl, by decide⟩
      ⟨lbrace :: mid, rbrace, by simp, by decide⟩
  have hne : L.dropWhile wsChar ++ (lbrace :: mid ++ [rbrace]) ++
      (R.reverse.dropWhile wsChar).reverse ≠ [] := by simp
  have hraw : rawOf (some (String.mk (L ++ (lbrace :: mid ++ [rbrace]) ++ R)))
      = L.dropWhile wsChar ++ (lbrace :: mid ++ [rbrace]) ++
        (R.reverse.dropWhile wsChar).reverse := by
    unfold rawOf
    simp only [String.data]
    rw [ht]
    rw [if_neg hne]
  rw [hraw]
  have hL1' : ∀ c ∈ L.dropWhile wsChar, c ≠ lbrace :=
    fun c hc => hL1 c (mem_of_mem_dropWhile wsChar L c hc)
  have hL2' : ∀ c ∈ L.dropWhile wsChar, c ≠ btick :=
    fun c hc => hL2 c (mem_of_mem_dropWhile wsChar L c hc)
  have hR' : ∀ c ∈ (R.reverse.dropWhile wsChar).reverse, c ≠ rbrace :=
    fun c hc => hR c (List.mem_reverse.mp
      (mem_of_mem_dropWhile wsChar R.reverse c (List.mem_reverse.mp hc)))
  have hfence : startsWithFence (L.dropWhile wsChar ++ (lbrace :: mid ++ [rbrace]) ++
      (R.reverse.dropWhile wsChar).reverse) = false := by
    cases hcase : L.dropWhile wsChar with
    | nil =>
      have e : ([] : List Char) ++ (lbrace :: mid ++ [rbrace]) ++
          (R.reverse.dropWhile wsChar).reverse
          = lbrace :: ((mid ++ [rbrace]) ++ (R.reverse.dropWhile wsChar).reverse) := by simp
      rw [e]
      exact startsWithFence_of_head _ _ (by decide)
    | cons a t =>
      have ha : a ≠ btick := hL2' a (by rw [hcase]; simp)
      have e : (a :: t) ++ (lbrace :: mid ++ [rbrace]) ++
          (R.reverse.dropWhile wsChar).reverse
          = a :: (t ++ (lbrace :: mid ++ [rbrace]) ++
              (R.reverse.dropWhile wsChar).reverse) := by simp
      rw [e]
      exact startsWithFence_of_head _ _ ha
  have hdef : defenceFences (L.dropWhile wsChar ++ (lbrace :: mid ++ [rbrace]) ++
      (R.reverse.dropWhile wsChar).reverse)
      = L.dropWhile wsChar ++ (lbrace :: mid ++ [rbrace]) ++
        (R.reverse.dropWhile wsChar).reverse := by
    unfold defenceFences
    rw [hfence]
    simp
  rw [hdef]
  exact braceSlice_extract _ mid _ hL1' hR'

/-- The plain block itself passes through preprocessing unchanged. -/
theorem preprocessA_plain (mid : List Char) :
    braceSlice (defenceFences (rawOf (some (String.mk (lbrace :: mid ++ [rbrace])))))
      = lbrace :: mid ++ [rbrace] := by
  have h := preprocessA_prose [] mid [] (by simp) (by simp) (by simp)
  simpa using h

theorem stripOpenFence_fence (rest : List Char) :
    stripOpenFence (btick :: btick :: btick :: rest)
      = (match rest.dropWhile isAlnumCh with
         | '\n' :: tl => tl
         | _ => btick :: btick :: btick :: rest) := by
  unfold stripOpenFence
  simp

theorem stripCloseFence_fence (Z rest : List Char)
    (h : Z.reverse = btick :: btick :: btick :: rest) :
    stripCloseFence Z = rest.reverse := by
  unfold stripCloseFence
  rw [h]
  simp

/-- Preprocessing of the fence-aware extractor on a fenced block
(an optional alphanumeric language tag after the opening fence). -/
theorem preprocessA_fenced (lang mid : List Char)
    (hlang : ∀ c ∈ lang, isAlnumCh c = true) :
    braceSlice (defenceFences (rawOf (some (String.mk
        (btick :: btick :: btick :: (lang ++ '\n' ::
          ((lbrace :: mid ++ [rbrace]) ++ '\n' :: [btick, btick, btick])))))))
      = lbrace :: mid ++ [rbrace] := by
  have htrim : jsTrim (btick :: btick :: btick :: (lang ++ '\n' ::
      ((lbrace :: mid ++ [rbrace]) ++ '\n' :: [btick, btick, btick])))
      = btick :: btick :: btick :: (lang ++ '\n' ::
        ((lbrace :: mid ++ [rbrace]) ++ '\n' :: [btick, btick, btick])) := by
    apply jsTrim_id
    · exact ⟨btick, _, rfl, by decide⟩
    · refine ⟨btick :: btick :: btick :: (lang ++ '\n' ::
        ((lbrace :: mid ++ [rbrace]) ++ '\n' :: [btick, btick])), btick, ?_, by decide⟩
      simp
  have hraw : rawOf (some (String.mk
      (btick :: btick :: btick :: (lang ++ '\n' ::
        ((lbrace :: mid ++ [rbrace]) ++ '\n' :: [btick, btick, btick])))))
      = btick :: btick :: btick :: (lang ++ '\n' ::
        ((lbrace :: mid ++ [rbrace]) ++ '\n' :: [btick, btick, btick])) := by
    unfold rawOf
    simp only [String.data]
    rw [htrim]
    rw [if_neg (by simp)]
  rw [hraw]
  have hopen : stripOpenFence (btick :: btick :: btick :: (lang ++ '\n' ::
      ((lbrace :: mid ++ [rbrace]) ++ '\n' :: [btick, btick, btick])))
      = (lbrace :: mid ++ [rbrace]) ++ '\n' :: [btick, btick, btick] := by
    rw [stripOpenFence_fence]
    rw [dropWhile_append_cons isAlnumCh lang '\n' _ (by decide)]
    rw [dropWhile_eq_nil_of_all isAlnumCh lang hlang]
    simp
  have hclose : stripCloseFence ((lbrace :: mid ++ [rbrace]) ++ '\n' :: [btick, btick, btick])
      = (lbrace :: mid ++ [rbrace]) ++ ['\n'] := by
    have hrev : ((lbrace :: mid ++ [rbrace]) ++ '\n' :: [btick, btick, btick]).reverse
        = btick :: btick :: btick :: ('\n' :: (lbrace :: mid ++ [rbrace]).reverse) := by
      simp [List.reverse_append]
    rw [stripCloseFence_fence _ _ hrev]
    simp
  have htrim2 : jsTrim ((lbrace :: mid ++ [rbrace]) ++ ['\n'])
      = lbrace :: mid ++ [rbrace] := by
    have h := jsTrim_around [] ['\n'] (lbrace :: mid ++ [rbrace])
      ⟨lbrace, mid ++ [rbrace], rfl, by decide⟩ ⟨lbrace :: mid, rbrace, by simp, by decide⟩
    simp only [List.nil_append] at h
    rw [h]
    have : List.dropWhile wsChar ['\n'].reverse = [] := by decide
    rw [this]
    simp
  have hdef : defenceFences (btick :: btick :: btick :: (lang ++ '\n' ::
      ((lbrace :: mid ++ [rbrace]) ++ '\n' :: [btick, btick, btick])))
      = lbrace :: mid ++ [rbrace] := by
    unfold defenceFences
    have hf : startsWithFence (btick :: btick :: btick :: (lang ++ '\n' ::
        ((lbrace :: mid ++ [rbrace]) ++ '\n' :: [btick, btick, btick]))) = true := by
      simp [startsWithFence]
    rw [hf]
    simp only [if_pos]
    rw [hopen, hclose, htrim2]
  rw [hdef]
  have h := braceSlice_extract [] mid [] (by simp) (by simp)
  simpa using h

/-- Claim C1 (the code violates it): `createComment` does not drop a finding
whose `lineNumber` fails to coerce; evaluated at the failing input — a file
with destination `src/A.swift` and a finding with `lineNumber = "abc"` — the
output contains a record whose `line` is NaN (`none`), where the claim and
§4.4 of the spec require the finding to be dropped. -/
theorem createComment_keeps_nan_line :
    createComment fileOk chunk0 [findingNaN]
      = [{ body := Json.str "check this", path := "src/A.swift", line := none }] := rfl

/-- Claim C2, counterexample: surrounding a well-formed `{"reviews":[]}`
payload with prose whose trailing part contains a `}` changes the extraction
result (the brace slice then spans into the prose, `JSON.parse` throws, and
the extractor returns `null` instead of the empty review list). -/
theorem getAIResponse_prose_changes_result :
    getAIResponseFenceAware (some ("Sure! " ++ tRevEmpty ++ " :-\x7d bye"))
      ≠ getAIResponseFenceAware (some tRevEmpty) := by
  intro h
  have h1 : getAIResponseFenceAware (some ("Sure! " ++ tRevEmpty ++ " :-\x7d bye")) = none := rfl
  have h2 : getAIResponseFenceAware (some tRevEmpty) = some (Json.arr []) := rfl
  rw [h1, h2] at h
  exact Option.noConfusion h

/-- Claim C2 (amended): for any brace-delimited payload, wrapping it in a
fenced block with an alphanumeric language tag never changes the extraction
result of the fence-aware `getAIResponse`; surrounding it with prose does not
either, provided the leading prose contains no `{` and no backtick and the
trailing prose contains no `}` (the counterexample shows the restriction is
necessary). -/
theorem getAIResponse_unwrap_stable (mid lang L R : List Char)
    (hlang : ∀ c ∈ lang, isAlnumCh c = true)
    (hL1 : ∀ c ∈ L, c ≠ lbrace) (hL2 : ∀ c ∈ L, c ≠ btick)
    (hR : ∀ c ∈ R, c ≠ rbrace) :
    getAIResponseFenceAware (some (String.mk
        (btick :: btick :: btick :: (lang ++ '\n' ::
          ((lbrace :: mid ++ [rbrace]) ++ '\n' :: [btick, btick, btick])))))
      = getAIResponseFenceAware (some (String.mk (lbrace :: mid ++ [rbrace])))
    ∧ getAIResponseFenceAware (some (String.mk
        (L ++ (lbrace :: mid ++ [rbrace]) ++ R)))
      = getAIResponseFenceAware (some (String.mk (lbrace :: mid ++ [rbrace]))) := by
  constructor
  · unfold getAIResponseFenceAware
    rw [preprocessA_fenced lang mid hlang, preprocessA_plain mid]
  · unfold getAIResponseFenceAware
    rw [preprocessA_prose L mid R hL1 hL2 hR, preprocessA_plain mid]

/-- Witness for the amended C2 theorem at a concrete payload, language tag
and prose. -/
theorem getAIResponse_unwrap_stable_w :
    getAIResponseFenceAware (some (String.mk
        (btick :: btick :: btick :: ("json".data ++ '\n' ::
          ((lbrace :: "\"reviews\":[]".data ++ [rbrace]) ++ '\n' :: [btick, btick, btick])))))
      = getAIResponseFenceAware (some (String.mk (lbrace :: "\"reviews\":[]".data ++ [rbrace])))
    ∧ getAIResponseFenceAware (some (String.mk
        ("Sure! ".data ++ (lbrace :: "\"reviews\":[]".data ++ [rbrace]) ++ " ok".data)))
      = getAIResponseFenceAware (some (String.mk (lbrace :: "\"reviews\":[]".data ++ [rbrace]))) :=
  getAIResponse_unwrap_stable "\"reviews\":[]".data "json".data "Sure! ".data " ok".data
    (by decide) (by decide) (by decide) (by decide)

/-- Claim C3, counterexample: on unparseable model output the extraction
stage returns `null` (`none`), not the empty findings list the claim
asserts. -/
theorem getAIResponseMain_failure_not_empty_list :
    getAIResponseMain (some "Sure!") = none ∧
      getAIResponseMain (some "Sure!") ≠ some (Json.arr []) := by
  have h : getAIResponseMain (some "Sure!") = none := rfl
  refine ⟨h, ?_⟩
  rw [h]
  intro hh
  exact Option.noConfusion hh

/-- Claim C3 (amended): the extraction stage never throws (it is total);
missing or blank text yields the empty findings list, while text whose
JSON parse fails yields `null` (`none`), which the orchestrator absorbs as
zero findings. -/
theorem getAIResponseMain_amended :
    getAIResponseMain none = some (Json.arr []) ∧
      ∀ s : String, jsonParseL (rawOf (some s)) = none → getAIResponseMain (some s) = none := by
  constructor
  · rfl
  · intro s h
    unfold getAIResponseMain
    rw [h]

/-- Witness for the amended C3 theorem: absent text and a concrete
unparseable text. -/
theorem getAIResponseMain_amended_w :
    getAIResponseMain none = some (Json.arr []) ∧
      getAIResponseMain (some "no json here") = none :=
  ⟨getAIResponseMain_amended.1, getAIResponseMain_amended.2 "no json here" rfl⟩

theorem encounterFrom_append (inv : Nat → Option (List Json)) :
    ∀ (xs ys : List (FileChange × Chunk)) (i : Nat),
      encounterFrom inv i (xs ++ ys)
        = encounterFrom inv i xs ++ encounterFrom inv (i + xs.length) ys := by
  intro xs
  induction xs with
  | nil => intro ys i; simp [encounterFrom]
  | cons fc rest ih =>
    intro ys i
    obtain ⟨f, c⟩ := fc
    simp only [List.cons_append, encounterFrom, List.length_cons, List.append_eq]
    rw [ih ys (i + 1)]
    have hn : i + 1 + rest.length = i + (rest.length + 1) := by omega
    rw [hn, List.append_assoc]

/-- Unrolling the chunk loop of one file against the spec-side encounter
list: the fold appends exactly the per-hunk contributions, records one
prompt per hunk and advances the invocation index by the hunk count. -/
theorem processChunks_spec (invoke : Nat → Option (List Json)) (pr : PRDetails)
    (f : FileChange) :
    ∀ (cs : List Chunk) (st : RunState),
      cs.foldl (processChunk invoke pr f) st
        = { comments := st.comments ++
              encounterFrom invoke st.idx (cs.map (fun c => (f, c))),
            prompts := st.prompts ++ cs.map (fun c => createPrompt f c pr),
            idx := st.idx + cs.length } := by
  intro cs
  induction cs with
  | nil => intro st; simp [encounterFrom]
  | cons c cs ih =>
    intro st
    rw [List.foldl_cons, ih]
    cases hinv : invoke st.idx with
    | none =>
      simp only [processChunk, hinv, List.map_cons, encounterFrom, List.length_cons,
        RunState.mk.injEq]
      refine ⟨?_, ?_, ?_⟩
      · simp
      · simp
      · omega
    | some r =>
      simp only [processChunk, hinv, List.map_cons, encounterFrom, List.length_cons,
        RunState.mk.injEq]
      refine ⟨?_, ?_, ?_⟩
      · simp
      · simp
      · omega

/-- Unrolling the file loop of `analyzeCode` against the spec-side encounter
list over `hunksOf`. -/
theorem processFiles_spec (invoke : Nat → Option (List Json)) (pr : PRDetails) :
    ∀ (files : List FileChange) (st : RunState),
      files.foldl (processFile invoke pr) st
        = { comments := st.comments ++ encounterFrom invoke st.idx (hunksOf files),
            prompts := st.prompts ++ promptsOf files pr,
            idx := st.idx + (hunksOf files).length } := by
  intro files
  induction files with
  | nil => intro st; simp [hunksOf, promptsOf, encounterFrom]
  | cons f fs ih =>
    intro st
    rw [List.foldl_cons]
    by_cases hdel : f.toPath = some "/dev/null"
    · rw [show processFile invoke pr st f = st from by simp [processFile, hdel]]
      rw [ih st]
      have h1 : hunksOf (f :: fs) = hunksOf fs := by simp [hunksOf, hdel]
      have h2 : promptsOf (f :: fs) pr = promptsOf fs pr := by
        simp [promptsOf, hunksOf, hdel]
      rw [h1, h2]
    · have hpf : processFile invoke pr st f = f.chunks.foldl (processChunk invoke pr f) st := by
        simp [processFile, hdel]
      rw [hpf, processChunks_spec, ih]
      have h1 : hunksOf (f :: fs) = f.chunks.map (fun c => (f, c)) ++ hunksOf fs := by
        simp [hunksOf, hdel]
      have h2 : promptsOf (f :: fs) pr
          = f.chunks.map (fun c => createPrompt f c pr) ++ promptsOf fs pr := by
        simp [promptsOf, h1, List.map_map, Function.comp]
      rw [h1, h2]
      simp only [RunState.mk.injEq]
      refine ⟨?_, ?_, ?_⟩
      · rw [encounterFrom_append]
        simp [List.append_assoc, List.length_map]
      · simp [List.append_assoc]
      · simp [List.length_append, List.length_map]
        omega

theorem createComment_noDest (f : FileChange) (c : Chunk) (rs : List Json)
    (h : noDestPath f.toPath = true) : createComment f c rs = [] := by
  unfold createComment
  simp [h]

theorem encounterFrom_noDest (invoke : Nat → Option (List Json)) (f : FileChange)
    (h : noDestPath f.toPath = true) :
    ∀ (cs : List Chunk) (i : Nat),
      encounterFrom invoke i (cs.map (fun c => (f, c))) = [] := by
  intro cs
  induction cs with
  | nil => intro i; rfl
  | cons c rest ih =>
    intro i
    simp only [List.map_cons, encounterFrom]
    rw [ih (i + 1)]
    cases hinv : invoke i with
    | none => simp
    | some r => simp [createComment_noDest f c r h]

theorem encounterFrom_congr (inv1 inv2 : Nat → Option (List Json))
    (h : ∀ i, inv1 i = inv2 i ∨ (inv1 i = none ∧ inv2 i = some [])) :
    ∀ (hs : List (FileChange × Chunk)) (i : Nat),
      encounterFrom inv1 i hs = encounterFrom inv2 i hs := by
  intro hs
  induction hs with
  | nil => intro i; rfl
  | cons fc rest ih =>
    intro i
    obtain ⟨f, c⟩ := fc
    simp only [encounterFrom]
    rw [ih (i + 1)]
    rcases h i with he | ⟨h1, h2⟩
    · rw [he]
    · rw [h1, h2]
      simp [createComment]

/-- Claim C5: the orchestrator's aggregate lists comment records in
encounter order — file order, then hunk order within a file, then finding
order within a hunk (`createComment` is an order-preserving `flatMap`) —
with no reordering by severity, path or any other key: `analyzeCode` equals
the spec-side in-order enumeration `encounterFrom` over `hunksOf`. -/
theorem analyzeCode_encounter_order (parsedDiff : List FileChange)
    (invoke : Nat → Option (List Json)) (prDetails : PRDetails) :
    (analyzeCode parsedDiff invoke prDetails).comments
      = encounterFrom invoke 0 (hunksOf parsedDiff) := by
  unfold analyzeCode
  rw [processFiles_spec]
  simp

/-- Claim C4: if the model invocation returns null for hunk `k` and succeeds
for all other hunks, the aggregate comment list equals that of a run where
hunk `k` succeeded with zero findings. -/
theorem analyzeCode_null_hunk_contained (parsedDiff : List FileChange)
    (prDetails : PRDetails) (inv1 inv2 : Nat → Option (List Json)) (k : Nat)
    (h1 : inv1 k = none) (h2 : inv2 k = some [])
    (h : ∀ i, i ≠ k → inv1 i = inv2 i) :
    (analyzeCode parsedDiff inv1 prDetails).comments
      = (analyzeCode parsedDiff inv2 prDetails).comments := by
  unfold analyzeCode
  rw [processFiles_spec, processFiles_spec]
  simp only [List.nil_append]
  exact encounterFrom_congr inv1 inv2
    (fun i => by
      by_cases hik : i = k
      · subst hik; exact Or.inr ⟨h1, h2⟩
      · exact Or.inl (h i hik))
    (hunksOf parsedDiff) 0

/-- Witness for C4 at a one-file, one-hunk diff with the failing invocation
at index 0. -/
theorem analyzeCode_null_hunk_contained_w :
    (analyzeCode [fileOk] (fun _ => none) pr0).comments
      = (analyzeCode [fileOk] (fun i => if i = 0 then some [] else none) pr0).comments :=
  analyzeCode_null_hunk_contained [fileOk] pr0 _ _ 0 rfl rfl
    (fun i hi => by simp [hi])

/-- Claim C6: a `FileChange` whose destination is `/dev/null` contributes
zero prompts, zero model invocations and zero comment records: removing it
from the diff leaves the whole run state (comments, prompts, invocation
count) unchanged. -/
theorem analyzeCode_deleted_file_skipped (pre post : List FileChange) (f : FileChange)
    (invoke : Nat → Option (List Json)) (prDetails : PRDetails)
    (hdel : f.toPath = some "/dev/null") :
    analyzeCode (pre ++ f :: post) invoke prDetails
      = analyzeCode (pre ++ post) invoke prDetails := by
  unfold analyzeCode
  rw [List.foldl_append, List.foldl_append, List.foldl_cons]
  congr 1
  simp [processFile, hdel]

/-- Witness for C6 at a diff holding just one deleted file. -/
theorem analyzeCode_deleted_file_skipped_w :
    analyzeCode ([] ++ fileDel :: []) (fun _ => some [findingOk]) pr0
      = analyzeCode ([] ++ []) (fun _ => some [findingOk]) pr0 :=
  analyzeCode_deleted_file_skipped [] [] fileDel _ pr0 rfl

/-- Claim C9: the deleted-file check compares only against the exact string
`/dev/null`; a file whose destination path is absent (`undefined` or `""`)
is still processed — one prompt and one model invocation per hunk — and the
mapper then drops every finding, so it contributes zero comment records but
a positive number of model calls. -/
theorem analyzeCode_missing_dest_calls (f : FileChange)
    (invoke : Nat → Option (List Json)) (prDetails : PRDetails)
    (hto : f.toPath = none ∨ f.toPath = some "") (hch : f.chunks ≠ []) :
    (analyzeCode [f] invoke prDetails).comments = []
    ∧ (analyzeCode [f] invoke prDetails).prompts.length = f.chunks.length
    ∧ (analyzeCode [f] invoke prDetails).idx = f.chunks.length
    ∧ 0 < (analyzeCode [f] invoke prDetails).idx := by
  have hndel : f.toPath ≠ some "/dev/null" := by rcases hto with h | h <;> simp [h]
  have hnd : noDestPath f.toPath = true := by rcases hto with h | h <;> simp [noDestPath, h]
  unfold analyzeCode
  rw [List.foldl_cons, List.foldl_nil]
  rw [show processFile invoke prDetails { comments := [], prompts := [], idx := 0 } f
      = f.chunks.foldl (processChunk invoke prDetails f)
          { comments := [], prompts := [], idx := 0 } from by simp [processFile, hndel]]
  rw [processChunks_spec]
  refine ⟨?_, ?_, ?_, ?_⟩
  · simp [encounterFrom_noDest invoke f hnd f.chunks 0]
  · simp
  · simp
  · simpa using List.length_pos.mpr hch

/-- Witness for C9 at a file with an absent destination and one hunk. -/
theorem analyzeCode_missing_dest_calls_w :
    (analyzeCode [fileNoDest] (fun _ => some [findingOk]) pr0).comments = []
    ∧ (analyzeCode [fileNoDest] (fun _ => some [findingOk]) pr0).prompts.length
        = fileNoDest.chunks.length
    ∧ (analyzeCode [fileNoDest] (fun _ => some [findingOk]) pr0).idx
        = fileNoDest.chunks.length
    ∧ 0 < (analyzeCode [fileNoDest] (fun _ => some [findingOk]) pr0).idx :=
  analyzeCode_missing_dest_calls fileNoDest _ pr0 (Or.inl rfl) (by simp [fileNoDest])

/-- Claim C8: a run whose aggregate comment list is empty never invokes the
review-publication capability — `publishStep` produces no
`createReview` call. -/
theorem publish_skipped_when_no_comments (parsedDiff : List FileChange)
    (invoke : Nat → Option (List Json)) (prDetails : PRDetails)
    (h : (analyzeCode parsedDiff invoke prDetails).comments = []) :
    publishStep prDetails (analyzeCode parsedDiff invoke prDetails).comments = none := by
  rw [h]
  rfl

/-- Witness for C8 on the empty diff. -/
theorem publish_skipped_when_no_comments_w :
    publishStep pr0 (analyzeCode [] (fun _ => none) pr0).comments = none :=
  publish_skipped_when_no_comments [] (fun _ => none) pr0 rfl

theorem str_append_assoc (a b c : String) : (a ++ b) ++ c = a ++ (b ++ c) := by
  cases a with
  | mk x =>
    cases b with
    | mk y =>
      cases c with
      | mk z =>
        show String.mk ((x ++ y) ++ z) = String.mk (x ++ (y ++ z))
        rw [List.append_assoc]

theorem str_length_append (a b : String) : (a ++ b).length = a.length + b.length := by
  show (a ++ b).data.length = a.data.length + b.data.length
  rw [str_data_append, List.length_append]

theorem truncate_length_le (s : String) (n : Nat) : (truncate s n).length ≤ n + 3 := by
  unfold truncate
  by_cases h : s.length ≤ n
  · rw [if_pos h]; omega
  · rw [if_neg h]
    have h1 : (String.mk (s.data.take n) ++ "...").length = (s.data.take n).length + 3 := by
      rw [str_length_append]
      rfl
    rw [h1]
    have h2 : (s.data.take n).length ≤ n := List.length_take_le n s.data
    omega

theorem strContains_of_eq (s pre mid post : String) (h : s = pre ++ mid ++ post) :
    strContains s mid = true := by
  rw [h]
  exact strContains_parts pre mid post

theorem listHasPfx_extend (sub l y : List Char) (h : listHasPfx sub l = true) :
    listHasPfx sub (l ++ y) = true := by
  induction sub generalizing l with
  | nil => rfl
  | cons a s ih =>
    cases l with
    | nil => simp [listHasPfx] at h
    | cons b t =>
      simp only [listHasPfx, Bool.and_eq_true] at h ⊢
      exact ⟨h.1, ih t h.2⟩

theorem listHasSub_extend (sub x y : List Char) (h : listHasSub sub x = true) :
    listHasSub sub (x ++ y) = true := by
  induction x with
  | nil =>
    simp only [listHasSub, List.isEmpty_iff] at h
    subst h
    cases y with
    | nil => rfl
    | cons c t => simp [listHasSub, listHasPfx]
  | cons c t ih =>
    simp only [listHasSub, Bool.or_eq_true] at h ⊢
    rcases h with h | h
    · exact Or.inl (listHasPfx_extend sub (c :: t) y h)
    · exact Or.inr (ih h)

theorem strContains_append_right (a b sub : String) (h : strContains a sub = true) :
    strContains (a ++ b) sub = true := by
  unfold strContains at h ⊢
  rw [str_data_append]
  exact listHasSub_extend sub.data a.data b.data h

/-- Claim C7, counterexample: on a completed zero-comment run the produced
payload (fallback text and both blocks) contains no `"0"`, so it does not
contain the count of comments as the claim requires for every comment
list. -/
theorem notify_zero_run_lacks_count :
    (notifySlack "https://hooks" pr0 []).map
        (fun p => strContains (joinNl (p.text :: p.blocks)) "0") = some false := rfl

/-- Claim C7 (amended): the notification is silently skipped when no webhook
URL is configured; otherwise the payload carries the PR link, at most five
preview one-liners — each a bullet built from a body truncated to 200
characters (so at most 203 with the ellipsis) — and the comment count
whenever at least one comment exists (a zero-comment run gets the fixed
no-findings message instead, per the counterexample). -/
theorem notifySlack_summary (url : String) (pr : PRDetails) (comments : List ReviewComment) :
    notifySlack "" pr comments = none
    ∧ (url ≠ "" → notifySlack url pr comments
          = some { text := "AI 코드 리뷰 결과",
                   blocks := [slackHeader pr, slackBody comments] })
    ∧ (previewOf comments).length = min 5 comments.length
    ∧ (∀ it ∈ previewOf comments, ∃ c, c ∈ comments ∧ it = previewItem c
          ∧ (truncate (oneLineOf c) 200).length ≤ 203)
    ∧ strContains (slackHeader pr) pr.url = true
    ∧ (comments ≠ [] → strContains (slackBody comments) (toString comments.length) = true) := by
  refine ⟨?_, ?_, ?_, ?_, ?_, ?_⟩
  · simp [notifySlack]
  · intro h
    simp [notifySlack, h]
  · simp [previewOf, List.length_take]
  · intro it hit
    rcases List.mem_map.mp hit with ⟨c, hc, rfl⟩
    exact ⟨c, List.take_subset 5 comments hc, rfl, truncate_length_le (oneLineOf c) 200⟩
  · apply strContains_of_eq _ "*AI 코드 리뷰 결과에요 🧁*\n*PR:* <" pr.url
      ("|" ++ (pr.title ++ ">"))
    unfold slackHeader
    rw [str_append_assoc ("*AI 코드 리뷰 결과에요 🧁*\n*PR:* <" ++ pr.url) "|" pr.title]
    rw [str_append_assoc ("*AI 코드 리뷰 결과에요 🧁*\n*PR:* <" ++ pr.url) ("|" ++ pr.title) ">"]
    rw [str_append_assoc "|" pr.title ">"]
  · intro h
    have hbase : baseTextOf comments
        = "이번 PR에 대해 *" ++ toString comments.length ++
          "개*의 리뷰 코멘트가 생성되었어용. 주요 내용 일부만 정리해 드릴게요 🐶" := by
      simp [baseTextOf, List.length_eq_zero, h]
    have hbody : slackBody comments
        = baseTextOf comments ++ "\n" ++ joinNl ("" :: previewOf comments) := by
      simp [slackBody, joinNl]
    rw [hbody, hbase]
    apply strContains_append_right
    apply strContains_append_right
    exact strContains_parts _ _ _

/-- Witness for the amended C7 theorem: a one-comment run produces the
payload and its body contains the count `1`. -/
theorem notifySlack_summary_w :
    notifySlack "https://hooks" pr0 [comment0]
        = some { text := "AI 코드 리뷰 결과",
                 blocks := [slackHeader pr0, slackBody [comment0]] }
    ∧ strContains (slackBody [comment0]) (toString ([comment0] : List ReviewComment).length)
        = true :=
  ⟨(notifySlack_summary "https://hooks" pr0 [comment0]).2.1 (by decide),
   (notifySlack_summary "https://hooks" pr0 [comment0]).2.2.2.2.2 (by simp)⟩

/-- Claim C10: with a webhook URL configured the notification is produced on
every completed run regardless of the comment count; a zero-comment run
posts the fixed no-findings message, while the review publication of the
same run tail stays conditional and is skipped. -/
theorem notify_unconditional (url : String) (pr : PRDetails) (comments : List ReviewComment)
    (h : url ≠ "") :
    ((mainFinal url pr comments).2).isSome = true
    ∧ (comments = [] →
        (mainFinal url pr comments).2
            = some { text := "AI 코드 리뷰 결과",
                     blocks := [slackHeader pr, noFindingsText ++ "\n"] }
          ∧ (mainFinal url pr comments).1 = none) := by
  constructor
  · simp [mainFinal, notifySlack, h]
  · intro hc
    subst hc
    have hsb : slackBody ([] : List ReviewComment) = noFindingsText ++ "\n" := by
      show joinNl (baseTextOf [] :: "" :: previewOf []) = _
      have : previewOf ([] : List ReviewComment) = [] := rfl
      rw [this]
      show baseTextOf [] ++ "\n" ++ joinNl [""] = _
      show baseTextOf [] ++ "\n" ++ "" = _
      rw [str_append_empty]
      rfl
    constructor
    · simp [mainFinal, notifySlack, h, hsb]
    · rfl

/-- Witness for C10 at a configured URL and an empty comment list. -/
theorem notify_unconditional_w :
    ((mainFinal "https://hooks" pr0 []).2).isSome = true
    ∧ (mainFinal "https://hooks" pr0 []).2
        = some { text := "AI 코드 리뷰 결과",
                 blocks := [slackHeader pr0, noFindingsText ++ "\n"] }
    ∧ (mainFinal "https://hooks" pr0 []).1 = none :=
  ⟨(notify_unconditional "https://hooks" pr0 [] (by decide)).1,
   (notify_unconditional "https://hooks" pr0 [] (by decide)).2 rfl⟩
